import Mathlib

/-!
Verification of the rate-limited HTTP API client layer
(`web_api.py`, `yandex_disk_api.py`).

Timestamps (Python `time.time()` floats) are modelled as rationals `ℚ`.
Each call to `time.time()` in the source becomes an explicit `now`
parameter; real time is monotone, which appears as `now ≤ now'`
hypotheses where several samples occur.  HTTP responses are modelled as
records carrying the status code, the raw body text and, when the body
parses as JSON, its pretty-printed form (`response.json()` followed by
`json.dumps(..., indent=4, ensure_ascii=False)` is a library call and is
modelled by the `json` field holding the already-rendered string; `none`
models `json.JSONDecodeError`).  Raising is modelled with `Except`.
-/

/-- An HTTP response as seen by the clients: `status_code`, `text`, and
`json = some s` when the body parses as JSON with pretty-printed form `s`
(`none` models a `json.JSONDecodeError` from `response.json()`). -/
structure HttpResponse where
  status_code : ℕ
  text : String
  json : Option String
deriving DecidableEq, Repr

/-- A raised `requests.HTTPError`: the offending status code together with
the diagnostic notes attached via `e.add_note(...)` (empty when no note
was attached). -/
structure HttpError where
  status : ℕ
  notes : List String
deriving DecidableEq, Repr

/-- The condition under which `requests.Response.raise_for_status()`
raises: the status code is a 4xx client error or a 5xx server error. -/
def isErrorStatus (code : ℕ) : Bool :=
  (400 ≤ code && code < 600)

/-- Embedding of `BasicWebApi._get_history_for_period` (web_api.py:212):
keep the request records `t` with `t + period_secs >= now`. -/
def getHistoryForPeriod (history : List ℚ) (periodSecs now : ℚ) : List ℚ :=
  history.filter (fun t => decide (t + periodSecs ≥ now))

/-- Embedding of `BasicWebApi._clear_expired_requests` (web_api.py:231):
the new history is the old one filtered to the retention window
`expire` (`self._request_history_expire`). -/
def clearExpiredRequests (expire : ℚ) (history : List ℚ) (now : ℚ) : List ℚ :=
  getHistoryForPeriod history expire now

/-- Embedding of `BasicWebApi._count_history` (web_api.py:240):
`sum(1 for _ in self._get_history_for_period(period_secs))`. -/
def countHistory (history : List ℚ) (periodSecs now : ℚ) : ℕ :=
  (getHistoryForPeriod history periodSecs now).length

/-- Embedding of `BasicWebApi.get_rate_per_period` (web_api.py:89): prune
the history to the retention window `expire`, then count the records in
the last `period` seconds.  Returns the count together with the pruned
history (the method mutates `self._request_history`).  The two
`time.time()` samples taken inside one call are idealised to a single
instant `now`. -/
def getRatePerPeriod (expire : ℚ) (history : List ℚ) (period now : ℚ) :
    ℕ × List ℚ :=
  let pruned := clearExpiredRequests expire history now
  (countHistory pruned period now, pruned)

/-- Embedding of `BasicWebApi._register_request` (web_api.py:208) and the
identical `YandexDiskApi._register_request` (yandex_disk_api.py:188):
append the current timestamp to the request history. -/
def registerRequest (history : List ℚ) (now : ℚ) : List ℚ :=
  history ++ [now]

/-- The `HISTORY_EXPIRE_PERIOD` class constant of `YandexDiskApi`
(yandex_disk_api.py:24). -/
def HISTORY_EXPIRE_PERIOD : ℚ := 2

/-- Embedding of the `YandexDiskApi.requests_per_second` property
(yandex_disk_api.py:52): prune with the 2-second retention window, then
count the records of the last second. -/
def ydRequestsPerSecond (history : List ℚ) (now : ℚ) : ℕ × List ℚ :=
  getRatePerPeriod HISTORY_EXPIRE_PERIOD history 1 now

/-- C5: `count_in_window`/`_count_history` returns exactly the number of
recorded timestamps `t` with `t + period >= now`; an empty history yields
0; and pruning with retention window `E` keeps exactly the timestamps `t`
with `t + E >= now` (so none with `t + E < now` remains and every
timestamp with `t + E >= now` is retained). -/
theorem count_in_window_and_prune_correct :
    (∀ h p now, countHistory h p now = h.countP (fun t => decide (t + p ≥ now))) ∧
    (∀ p now, countHistory [] p now = 0) ∧
    (∀ E h now t, t ∈ clearExpiredRequests E h now ↔ t ∈ h ∧ t + E ≥ now) := by
  refine ⟨fun h p now => ?_, fun p now => rfl, fun E h now t => ?_⟩
  · simp [countHistory, getHistoryForPeriod, List.countP_eq_length_filter]
  · simp [clearExpiredRequests, getHistoryForPeriod, List.mem_filter]

/-- C9: `get_rate_per_period(p)` prunes with the retention window `E`
before counting, so its result counts exactly the recorded timestamps
within `min p E` seconds of `now`; likewise the storage client's
`requests_per_second` counts within `min 1 2 = 1` second after pruning
with its 2-second window. -/
theorem get_rate_per_period_min_window :
    (∀ E h p now, (getRatePerPeriod E h p now).1 =
      h.countP (fun t => decide (t + min p E ≥ now))) ∧
    (∀ h now, (ydRequestsPerSecond h now).1 =
      h.countP (fun t => decide (t + 1 ≥ now))) := by
  have key : ∀ E h p now, (getRatePerPeriod E h p now).1 =
      h.countP (fun t => decide (t + min p E ≥ now)) := by
    intro E h p now
    simp only [getRatePerPeriod, clearExpiredRequests, countHistory,
      getHistoryForPeriod, List.filter_filter, List.countP_eq_length_filter]
    apply congrArg List.length
    apply List.filter_congr
    intro t _
    have hiff : t + p ≥ now ∧ t + E ≥ now ↔ t + min p E ≥ now := by
      rw [ge_iff_le, ge_iff_le, ge_iff_le, ← min_add_add_left, le_min_iff]
    rw [Bool.eq_iff_iff]
    simp only [Bool.and_eq_true, decide_eq_true_eq]
    exact hiff
  refine ⟨key, fun h now => ?_⟩
  have := key HISTORY_EXPIRE_PERIOD h 1 now
  rw [ydRequestsPerSecond, this]
  apply List.countP_congr
  intro t _
  have hmin : min (1 : ℚ) HISTORY_EXPIRE_PERIOD = 1 := by
    rw [HISTORY_EXPIRE_PERIOD]; norm_num
  rw [hmin]

/-- Embedding of the `WebApiLimit` named tuple (web_api.py:19): a rate
limit `rate_limit` to be respected during `period` seconds. -/
structure WebApiLimit where
  period : ℚ
  rate_limit : ℤ
deriving DecidableEq, Repr

/-- Operational semantics of `BasicWebApi._wait_for_api_limits`
(web_api.py:253): the limits are traversed in configured order; for each
one, `get_rate_per_period(limit.period)` (which prunes the history with
the retention window `expire` and then counts) is re-checked, sleeping
`sleepLen` seconds (`self._rate_limit_sleep`) while the count is at or
above `limit.rate_limit`.  `WaitForApiLimits expire sleepLen limits h now
h' now'` holds when the loop, entered with history `h` at time `now`,
terminates with history `h'` at time `now'`.  Each check happens at its
own (monotonically advanced) time sample; a sleep advances time by at
least `sleepLen`. -/
inductive WaitForApiLimits (expire sleepLen : ℚ) :
    List WebApiLimit → List ℚ → ℚ → List ℚ → ℚ → Prop
  | nil (h : List ℚ) (now : ℚ) :
      WaitForApiLimits expire sleepLen [] h now h now
  | pass {l : WebApiLimit} {rest : List WebApiLimit}
      {h : List ℚ} {now now₂ : ℚ} {h' : List ℚ} {now' : ℚ}
      (hcount :
        ((getRatePerPeriod expire h l.period now).1 : ℤ) < l.rate_limit)
      (htime : now ≤ now₂)
      (hrest : WaitForApiLimits expire sleepLen rest
        (getRatePerPeriod expire h l.period now).2 now₂ h' now') :
      WaitForApiLimits expire sleepLen (l :: rest) h now h' now'
  | sleep {l : WebApiLimit} {rest : List WebApiLimit}
      {h : List ℚ} {now now₂ : ℚ} {h' : List ℚ} {now' : ℚ}
      (hcount :
        l.rate_limit ≤ ((getRatePerPeriod expire h l.period now).1 : ℤ))
      (htime : now ≤ now₂) (hslept : now + sleepLen ≤ now₂)
      (hrest : WaitForApiLimits expire sleepLen (l :: rest)
        (getRatePerPeriod expire h l.period now).2 now₂ h' now') :
      WaitForApiLimits expire sleepLen (l :: rest) h now h' now'

theorem countHistory_mono_now {h : List ℚ} {p now₁ now₂ : ℚ}
    (hle : now₁ ≤ now₂) : countHistory h p now₂ ≤ countHistory h p now₁ := by
  simp only [countHistory, getHistoryForPeriod, ← List.countP_eq_length_filter]
  apply List.countP_mono_left
  intro t _ ht
  simp only [decide_eq_true_eq] at ht ⊢
  exact le_trans hle ht

theorem countHistory_sublist {h₁ h₂ : List ℚ} {p now : ℚ}
    (hs : h₁.Sublist h₂) : countHistory h₁ p now ≤ countHistory h₂ p now :=
  (hs.filter _).length_le

theorem waitForApiLimits_time_mono {E S : ℚ} {ls : List WebApiLimit}
    {h : List ℚ} {now : ℚ} {h' : List ℚ} {now' : ℚ}
    (H : WaitForApiLimits E S ls h now h' now') : now ≤ now' := by
  induction H with
  | nil => exact le_refl _
  | pass hcount htime hrest ih => exact le_trans htime ih
  | sleep hcount htime hslept hrest ih => exact le_trans htime ih

theorem waitForApiLimits_sublist {E S : ℚ} {ls : List WebApiLimit}
    {h : List ℚ} {now : ℚ} {h' : List ℚ} {now' : ℚ}
    (H : WaitForApiLimits E S ls h now h' now') : h'.Sublist h := by
  induction H with
  | nil => exact List.Sublist.refl _
  | pass hcount htime hrest ih =>
    exact ih.trans (List.filter_sublist _)
  | sleep hcount htime hslept hrest ih =>
    exact ih.trans (List.filter_sublist _)

/-- C1: whenever `_wait_for_api_limits` returns (so a request is about to
be dispatched, at any time `nowD` at or after the loop's exit time),
every configured limit `(period, rate_limit)` is unsaturated: the number
of request timestamps in the history at dispatch that fall within
`period` seconds of `nowD` is strictly below `rate_limit`.  The gate is
the conjunction of all limits, each enforced by the iterative re-checking
encoded in `WaitForApiLimits`. -/
theorem wait_for_api_limits_gate {E S : ℚ} {ls : List WebApiLimit}
    {h : List ℚ} {now : ℚ} {h' : List ℚ} {now' : ℚ}
    (H : WaitForApiLimits E S ls h now h' now') :
    ∀ l ∈ ls, ∀ nowD : ℚ, now' ≤ nowD →
      ((countHistory h' l.period nowD : ℤ) < l.rate_limit) := by
  induction H with
  | nil => intro l hl; exact absurd hl (List.not_mem_nil _)
  | @pass l rest h now now₂ h' now' hcount htime hrest ih =>
    intro l' hl' nowD hD
    rcases List.mem_cons.mp hl' with rfl | hmem
    · have h1 : countHistory h' l'.period nowD ≤
          countHistory (getRatePerPeriod E h l'.period now).2 l'.period nowD :=
        countHistory_sublist (waitForApiLimits_sublist hrest)
      have h2 : countHistory (getRatePerPeriod E h l'.period now).2 l'.period nowD ≤
          countHistory (getRatePerPeriod E h l'.period now).2 l'.period now := by
        apply countHistory_mono_now
        exact le_trans htime (le_trans (waitForApiLimits_time_mono hrest) hD)
      have h3 : (getRatePerPeriod E h l'.period now).1 =
          countHistory (getRatePerPeriod E h l'.period now).2 l'.period now := rfl
      have := le_trans h1 h2
      omega
    · exact ih l' hmem nowD hD
  | @sleep l rest h now now₂ h' now' hcount htime hslept hrest ih =>
    intro l' hl' nowD hD
    exact ih l' hl' nowD hD

/-- Witness for C1: a concrete terminating run of the limiter loop with
retention window 2 s, sleep 1 s and the single limit (2 s, max 2):
entered with history `[0, 1]` at time 1 the gate is saturated; two sleeps
advance time to 3, by which point the record at 0 has both left the
window and been pruned; the re-check passes, and at the dispatch time 3
the limit is unsaturated on the final history `[1]`. -/
theorem wait_for_api_limits_gate_witness :
    WaitForApiLimits 2 1 [⟨2, 2⟩] [0, 1] 1 [1] 3 ∧
    ((countHistory [1] 2 3 : ℤ) < 2) := by
  have e1 : (getRatePerPeriod 2 [0, 1] (2:ℚ) 1) = (2, [0, 1]) := by
    simp [getRatePerPeriod, clearExpiredRequests, countHistory,
      getHistoryForPeriod, List.filter_cons]
  have e2 : (getRatePerPeriod 2 [0, 1] (2:ℚ) 2) = (2, [0, 1]) := by
    simp [getRatePerPeriod, clearExpiredRequests, countHistory,
      getHistoryForPeriod, List.filter_cons]
  have e3 : (getRatePerPeriod 2 [0, 1] (2:ℚ) 3) = (1, [1]) := by
    norm_num [getRatePerPeriod, clearExpiredRequests, countHistory,
      getHistoryForPeriod, List.filter_cons]
  have hrun : WaitForApiLimits 2 1 [⟨2, 2⟩] [0, 1] 1 [1] 3 := by
    apply @WaitForApiLimits.sleep 2 1 ⟨2, 2⟩ [] [0, 1] 1 2 [1] 3
    · rw [show (⟨2, 2⟩ : WebApiLimit).period = 2 from rfl, e1]; norm_num
    · norm_num
    · norm_num
    · rw [show (⟨2, 2⟩ : WebApiLimit).period = 2 from rfl, e1]
      apply @WaitForApiLimits.sleep 2 1 ⟨2, 2⟩ [] [0, 1] 2 3 [1] 3
      · rw [show (⟨2, 2⟩ : WebApiLimit).period = 2 from rfl, e2]; norm_num
      · norm_num
      · norm_num
      · rw [show (⟨2, 2⟩ : WebApiLimit).period = 2 from rfl, e2]
        apply @WaitForApiLimits.pass 2 1 ⟨2, 2⟩ [] [0, 1] 3 3 [1] 3
        · rw [show (⟨2, 2⟩ : WebApiLimit).period = 2 from rfl, e3]
          norm_num
        · norm_num
        · rw [show (⟨2, 2⟩ : WebApiLimit).period = 2 from rfl, e3]
          exact WaitForApiLimits.nil _ _
  exact ⟨hrun,
    wait_for_api_limits_gate hrun ⟨2, 2⟩ (List.mem_singleton.mpr rfl) 3 le_rfl⟩

/-- A Python `dict[str, str]` modelled as an association list whose keys
are pairwise distinct; `dictKeys` lists the keys. -/
def dictKeys (d : List (String × String)) : List String :=
  d.map Prod.fst

/-- Lookup in the association-list model of a Python dict: the value at
the first (and, for genuine dicts, only) entry with the given key. -/
def dictGet (k : String) : List (String × String) → Option String
  | [] => none
  | p :: rest => if p.1 = k then some p.2 else dictGet k rest

/-- Assignment `d[k] = v` on the association-list model: overwrite the
entry if the key is present, otherwise append a new entry (insertion
order, as Python dicts preserve it). -/
def dictSet (d : List (String × String)) (k v : String) :
    List (String × String) :=
  if k ∈ dictKeys d then
    d.map (fun p => if p.1 = k then (k, v) else p)
  else
    d ++ [(k, v)]

/-- Embedding of Python's `d.update(u)`: assign every entry of `u` into
`d`, in order. -/
def dictUpdate (d u : List (String × String)) : List (String × String) :=
  u.foldl (fun acc p => dictSet acc p.1 p.2) d

theorem dictGet_eq_none (k : String) :
    ∀ d : List (String × String), k ∉ dictKeys d → dictGet k d = none := by
  intro d
  induction d with
  | nil => intro _; rfl
  | cons p rest ih =>
    intro hk
    rw [dictKeys, List.map_cons, List.mem_cons] at hk
    push_neg at hk
    rw [dictGet, if_neg (fun h => hk.1 h.symm)]
    exact ih hk.2

theorem dictGet_append (k : String) :
    ∀ d₁ d₂ : List (String × String),
      dictGet k (d₁ ++ d₂) =
        match dictGet k d₁ with
        | some v => some v
        | none => dictGet k d₂ := by
  intro d₁ d₂
  induction d₁ with
  | nil => rfl
  | cons p rest ih =>
    rw [List.cons_append, dictGet, dictGet]
    by_cases hp : p.1 = k
    · rw [if_pos hp, if_pos hp]
    · rw [if_neg hp, if_neg hp]
      exact ih

theorem dictGet_mapReplace_ne (k v k' : String) (hne : k' ≠ k) :
    ∀ d : List (String × String),
      dictGet k' (d.map (fun p => if p.1 = k then (k, v) else p)) =
        dictGet k' d := by
  intro d
  induction d with
  | nil => rfl
  | cons p rest ih =>
    rw [List.map_cons]
    by_cases hp : p.1 = k
    · rw [if_pos hp, dictGet, dictGet,
        if_neg (show ¬((k, v).1 = k') from fun h => hne h.symm),
        if_neg (show ¬(p.1 = k') from fun h => hne (hp.symm.trans h).symm)]
      exact ih
    · rw [if_neg hp, dictGet, dictGet]
      by_cases hp' : p.1 = k'
      · rw [if_pos hp', if_pos hp']
      · rw [if_neg hp', if_neg hp']
        exact ih

theorem dictGet_mapReplace_mem (k v : String) :
    ∀ d : List (String × String), k ∈ dictKeys d →
      dictGet k (d.map (fun p => if p.1 = k then (k, v) else p)) = some v := by
  intro d
  induction d with
  | nil => intro h; exact absurd h (List.not_mem_nil _)
  | cons p rest ih =>
    intro hmem
    rw [List.map_cons]
    by_cases hp : p.1 = k
    · rw [if_pos hp, dictGet, if_pos rfl]
    · rw [if_neg hp, dictGet, if_neg hp]
      apply ih
      rw [dictKeys, List.map_cons, List.mem_cons] at hmem
      rcases hmem with h | h
      · exact absurd h.symm hp
      · exact h

theorem dictGet_dictSet (d : List (String × String)) (k v k' : String) :
    dictGet k' (dictSet d k v) = if k' = k then some v else dictGet k' d := by
  by_cases hmem : k ∈ dictKeys d
  · rw [dictSet, if_pos hmem]
    by_cases hk : k' = k
    · subst hk
      rw [if_pos rfl]
      exact dictGet_mapReplace_mem k' v d hmem
    · rw [if_neg hk]
      exact dictGet_mapReplace_ne k v k' hk d
  · rw [dictSet, if_neg hmem, dictGet_append]
    by_cases hk : k' = k
    · subst hk
      rw [if_pos rfl, dictGet_eq_none k' d hmem]
      show dictGet k' [(k', v)] = some v
      rw [dictGet, if_pos rfl]
    · rw [if_neg hk]
      cases hd : dictGet k' d with
      | some w => rfl
      | none =>
        show dictGet k' [(k, v)] = none
        rw [dictGet, if_neg (show ¬((k, v).1 = k') from fun h => hk h.symm)]
        rfl

theorem dictGet_dictUpdate :
    ∀ (u d : List (String × String)) (k : String), (dictKeys u).Nodup →
      dictGet k (dictUpdate d u) =
        if k ∈ dictKeys u then dictGet k u else dictGet k d := by
  intro u
  induction u with
  | nil =>
    intro d k _
    rw [if_neg (show k ∉ dictKeys [] from List.not_mem_nil k)]
    rfl
  | cons p rest ih =>
    intro d k hnd
    rw [dictKeys, List.map_cons, List.nodup_cons] at hnd
    have hstep : dictUpdate d (p :: rest) = dictUpdate (dictSet d p.1 p.2) rest := rfl
    rw [hstep, ih (dictSet d p.1 p.2) k hnd.2]
    by_cases hk : k ∈ dictKeys rest
    · rw [if_pos hk,
        if_pos (show k ∈ dictKeys (p :: rest) from List.mem_cons_of_mem _ hk)]
      have hpk : ¬p.1 = k := fun h => hnd.1 (h.symm ▸ hk)
      rw [dictGet, if_neg hpk]
    · rw [if_neg hk, dictGet_dictSet]
      by_cases hkp : k = p.1
      · rw [if_pos hkp,
          if_pos (show k ∈ dictKeys (p :: rest) from by
            rw [dictKeys, List.map_cons]; rw [hkp]; exact List.mem_cons_self _ _),
          dictGet, if_pos hkp.symm]
      · rw [if_neg hkp,
          if_neg (show k ∉ dictKeys (p :: rest) from by
            rw [dictKeys, List.map_cons, List.mem_cons]
            push_neg
            exact ⟨hkp, hk⟩)]

/-- Embedding of `BasicWebApi._get_common_headers` (web_api.py:162):
`Accept`, keep-alive hints, and an `Authorization: OAuth <key>` entry
exactly when an OAuth key is configured. -/
def getCommonHeaders (oauthKey : Option String) : List (String × String) :=
  let headers := [("Accept", "application/json"),
                  ("Connection", "keep-alive"),
                  ("Keep-Alive", "timeout=60")]
  match oauthKey with
  | none => headers
  | some key => dictSet headers "Authorization" ("OAuth " ++ key)

/-- Embedding of `BasicWebApi._construct_headers` (web_api.py:147): start
from the common headers and, when the caller supplied headers, apply
`result.update(headers)`. -/
def constructHeaders (oauthKey : Option String)
    (headers : Option (List (String × String))) : List (String × String) :=
  match headers with
  | none => getCommonHeaders oauthKey
  | some hs => dictUpdate (getCommonHeaders oauthKey) hs

/-- C10: the headers of a dispatched request are the default headers
updated by the caller's mapping `hs`: every key present in `hs` resolves
to `hs`'s value (caller precedence) and every key absent from `hs`
resolves to the default; the defaults are `Accept: application/json`, the
keep-alive hints, and `Authorization: OAuth <key>` exactly when an OAuth
key is configured. -/
theorem construct_headers_correct :
    ∀ (key : Option String) (hs : List (String × String)) (k : String),
      (dictKeys hs).Nodup →
      (dictGet k (constructHeaders key (some hs)) =
        if k ∈ dictKeys hs then dictGet k hs
        else dictGet k (getCommonHeaders key)) ∧
      dictGet "Accept" (getCommonHeaders key) = some "application/json" ∧
      dictGet "Connection" (getCommonHeaders key) = some "keep-alive" ∧
      dictGet "Keep-Alive" (getCommonHeaders key) = some "timeout=60" ∧
      dictGet "Authorization" (getCommonHeaders key) =
        key.map (fun s => "OAuth " ++ s) ∧
      constructHeaders key none = getCommonHeaders key := by
  intro key hs k hnd
  refine ⟨dictGet_dictUpdate hs (getCommonHeaders key) k hnd, ?_, ?_, ?_, ?_, rfl⟩ <;>
    cases key <;> simp [getCommonHeaders, dictSet, dictKeys, dictGet]

/-- Witness for C10 at a concrete input: a caller header overriding
`Accept` wins, and the configured OAuth key appears as the
`Authorization` default. -/
theorem construct_headers_correct_witness :
    (dictGet "Accept"
        (constructHeaders (some "K") (some [("Accept", "text/html")])) =
      if "Accept" ∈ dictKeys [("Accept", "text/html")] then
        dictGet "Accept" [("Accept", "text/html")]
      else dictGet "Accept" (getCommonHeaders (some "K"))) ∧
    dictGet "Accept" (getCommonHeaders (some "K")) = some "application/json" ∧
    dictGet "Connection" (getCommonHeaders (some "K")) = some "keep-alive" ∧
    dictGet "Keep-Alive" (getCommonHeaders (some "K")) = some "timeout=60" ∧
    dictGet "Authorization" (getCommonHeaders (some "K")) =
      (some "K").map (fun s => "OAuth " ++ s) ∧
    constructHeaders (some "K") none = getCommonHeaders (some "K") :=
  construct_headers_correct (some "K") [("Accept", "text/html")] "Accept"
    (by simp [dictKeys])

/-- Embedding of `BasicWebApi._get_response_message` (web_api.py:197):
the pretty-printed JSON body when the body parses as JSON
(`json.dumps(response.json(), indent=4, ensure_ascii=False)`), otherwise
(`json.JSONDecodeError`) the raw body text. -/
def getResponseMessage (response : HttpResponse) : String :=
  match response.json with
  | some pretty => pretty
  | none => response.text

/-- Embedding of `BasicWebApi._raise_error` (web_api.py:173): when no
suppression is given, or the status code is not in the suppression set,
run `raise_for_status()`; a raised `HTTPError` gets the response message
attached via `add_note` and is re-raised. -/
def basicRaiseError (response : HttpResponse) (suppress : Option (List ℕ)) :
    Except HttpError Unit :=
  if suppress = none ∨ response.status_code ∉ suppress.getD [] then
    if isErrorStatus response.status_code then
      Except.error ⟨response.status_code, [getResponseMessage response]⟩
    else Except.ok ()
  else Except.ok ()

/-- Embedding of `YandexDiskApi._raise_error` (yandex_disk_api.py:165):
unless the status code equals `suppress_code` and `suppress_flag` is set,
run `raise_for_status()` — with no note attached to the raised error. -/
def ydRaiseError (response : HttpResponse) (suppressCode : ℕ)
    (suppressFlag : Bool) : Except HttpError Unit :=
  if response.status_code ≠ suppressCode ∨ suppressFlag = false then
    if isErrorStatus response.status_code then
      Except.error ⟨response.status_code, []⟩
    else Except.ok ()
  else Except.ok ()

/-- Counterexample to C6: the storage client's `_raise_error` calls
`raise_for_status()` without attaching the response body, so for a 404
response with body `missing` it raises an error carrying no notes — not
one annotated with the response message, as the claim asserts for both
clients. -/
theorem yd_raise_error_unannotated_cex :
    ydRaiseError ⟨404, "missing", none⟩ 0 false = Except.error ⟨404, []⟩ ∧
    ydRaiseError ⟨404, "missing", none⟩ 0 false ≠
      Except.error ⟨404, [getResponseMessage ⟨404, "missing", none⟩]⟩ := by
  constructor
  · rfl
  · intro h
    rw [show ydRaiseError ⟨404, "missing", none⟩ 0 false =
      Except.error ⟨404, []⟩ from rfl] at h
    simp at h

/-- C6 (amended): a response whose status is in the caller's suppression
set (or whose `(code, flag)` pair matches with the flag set) is returned
without raising; otherwise a 4xx/5xx status raises.  The generic client's
error is annotated with the response message — pretty-printed JSON when
the body parses as JSON, the raw text otherwise; the storage client's
error carries no such annotation. -/
theorem raise_error_suppression_fidelity :
    (∀ r s, r.status_code ∈ s → basicRaiseError r (some s) = Except.ok ()) ∧
    (∀ r s, r.status_code ∉ s → isErrorStatus r.status_code = true →
      basicRaiseError r (some s) =
        Except.error ⟨r.status_code, [getResponseMessage r]⟩) ∧
    (∀ r, isErrorStatus r.status_code = true →
      basicRaiseError r none =
        Except.error ⟨r.status_code, [getResponseMessage r]⟩) ∧
    (∀ r sup, isErrorStatus r.status_code = false →
      basicRaiseError r sup = Except.ok ()) ∧
    (∀ c t j, getResponseMessage ⟨c, t, some j⟩ = j) ∧
    (∀ c t, getResponseMessage ⟨c, t, none⟩ = t) ∧
    (∀ r c, r.status_code = c → ydRaiseError r c true = Except.ok ()) ∧
    (∀ r c f, r.status_code ≠ c ∨ f = false →
      isErrorStatus r.status_code = true →
      ydRaiseError r c f = Except.error ⟨r.status_code, []⟩) ∧
    (∀ r c f, isErrorStatus r.status_code = false →
      ydRaiseError r c f = Except.ok ()) := by
  refine ⟨?_, ?_, ?_, ?_, fun c t j => rfl, fun c t => rfl, ?_, ?_, ?_⟩
  · intro r s hs
    rw [basicRaiseError, if_neg]
    push_neg
    exact ⟨fun h => by simp at h, by simpa using hs⟩
  · intro r s hs herr
    rw [basicRaiseError, if_pos (Or.inr (by simpa using hs)), if_pos herr]
  · intro r herr
    rw [basicRaiseError, if_pos (Or.inl rfl), if_pos herr]
  · intro r sup herr
    rw [basicRaiseError]
    by_cases hc : sup = none ∨ r.status_code ∉ sup.getD []
    · rw [if_pos hc, if_neg (by rw [herr]; decide)]
    · rw [if_neg hc]
  · intro r c hc
    rw [ydRaiseError, if_neg]
    push_neg
    exact ⟨by simpa using hc, by decide⟩
  · intro r c f hor herr
    rw [ydRaiseError, if_pos, if_pos herr]
    rcases hor with h | h
    · exact Or.inl h
    · exact Or.inr h
  · intro r c f herr
    rw [ydRaiseError]
    by_cases hc : r.status_code ≠ c ∨ f = false
    · rw [if_pos hc, if_neg (by rw [herr]; decide)]
    · rw [if_neg hc]

/-- Witness for the amended C6: with `suppress = {404}` a 404 response is
returned without raising; without suppression the generic client raises
an error annotated with the raw body, while the storage client raises one
with no annotation. -/
theorem raise_error_suppression_fidelity_witness :
    basicRaiseError ⟨404, "gone", none⟩ (some [404]) = Except.ok () ∧
    basicRaiseError ⟨404, "gone", none⟩ none =
      Except.error ⟨404, [getResponseMessage ⟨404, "gone", none⟩]⟩ ∧
    ydRaiseError ⟨404, "gone", none⟩ 0 false = Except.error ⟨404, []⟩ :=
  ⟨raise_error_suppression_fidelity.1 ⟨404, "gone", none⟩ [404] (by simp),
   raise_error_suppression_fidelity.2.2.1 ⟨404, "gone", none⟩ rfl,
   raise_error_suppression_fidelity.2.2.2.2.2.2.2.1 ⟨404, "gone", none⟩ 0 false
     (Or.inl (by simp)) rfl⟩

/-- An HTTP request as handed to the `requests` library: method, full
URL, query parameters and headers. -/
structure HttpRequest where
  method : String
  url : String
  params : List (String × String)
  headers : List (String × String)
deriving DecidableEq, Repr

/-- A failure of `_request`: either a transport-level error raised by
`requests` while sending, or an HTTP-status error raised by
`_raise_error`. -/
inductive RequestError where
  | transport (msg : String)
  | http (e : HttpError)
deriving DecidableEq, Repr

/-- Embedding of the body of `BasicWebApi._request` (web_api.py:98) after
`_wait_for_api_limits` has returned (the wait itself is the
`WaitForApiLimits` relation): build the URL and headers, register the
request in the history, then send — the transport outcome is an input —
and apply `_raise_error`.  Returns the new history, the dispatched
request and the result. -/
def basicRequestAfterWait (apiRoot : String) (oauthKey : Option String)
    (method endpoint : String) (params : List (String × String))
    (headers : Option (List (String × String))) (suppress : Option (List ℕ))
    (history : List ℚ) (now : ℚ) (transport : Except String HttpResponse) :
    List ℚ × HttpRequest × Except RequestError HttpResponse :=
  let url := apiRoot ++ "/" ++ endpoint
  let hdrs := constructHeaders oauthKey headers
  let history' := registerRequest history now
  (history', ⟨method, url, params, hdrs⟩,
    match transport with
    | Except.error msg => Except.error (RequestError.transport msg)
    | Except.ok response =>
      match basicRaiseError response suppress with
      | Except.error e => Except.error (RequestError.http e)
      | Except.ok _ => Except.ok response)

/-- Counterexample to C7: the request history is not append-only and a
record is not visible to the rate-limit checks of every subsequent call —
with retention window 2, a record at time 0 is pruned by a check at time
5 and contributes 0 to the count even for period 10, although 0 + 10 ≥ 5. -/
theorem request_history_pruned_cex :
    getRatePerPeriod 2 [0] 10 5 = (0, []) ∧
    ((0 : ℚ) + 10 ≥ 5) ∧ (0 : ℚ) ∉ ([] : List ℚ) := by
  refine ⟨?_, by norm_num, List.not_mem_nil _⟩
  norm_num [getRatePerPeriod, clearExpiredRequests, countHistory,
    getHistoryForPeriod, List.filter_cons]

/-- C7 (amended): each dispatched request appends exactly one timestamp
at the end of the history, before the send (so the record is present in
the returned history even when the transport fails); appends keep the
history sorted when time is monotone, and pruning preserves sortedness
(so the history lists dispatch timestamps in dispatch order); and the
fresh record is counted by the rate-limit check of any subsequent call
while it is within both the retention window and the checked period. -/
theorem request_recording_order :
    (∀ root key m e ps hdrs sup h now tr,
      (basicRequestAfterWait root key m e ps hdrs sup h now tr).1 =
        h ++ [now]) ∧
    (∀ (h : List ℚ) (now : ℚ), (∀ t ∈ h, t ≤ now) →
      h.Sorted (· ≤ ·) → (registerRequest h now).Sorted (· ≤ ·)) ∧
    (∀ (E : ℚ) (h : List ℚ) (now : ℚ), h.Sorted (· ≤ ·) →
      (clearExpiredRequests E h now).Sorted (· ≤ ·)) ∧
    (∀ (E : ℚ) (h : List ℚ) (now p now' : ℚ),
      now + E ≥ now' → now + p ≥ now' →
      (getRatePerPeriod E (registerRequest h now) p now').1 =
        (getRatePerPeriod E h p now').1 + 1) := by
  refine ⟨fun _ _ _ _ _ _ _ _ _ _ => rfl, ?_, ?_, ?_⟩
  · intro h now hle hs
    rw [registerRequest]
    refine List.pairwise_append.mpr ⟨hs, List.sorted_singleton now, ?_⟩
    intro a ha b hb
    rw [List.mem_singleton.mp hb]
    exact hle a ha
  · intro E h now hs
    exact hs.filter _
  · intro E h now p now' hE hp
    have h1 : List.filter (fun t => decide (t + E ≥ now')) [now] = [now] := by
      simp [List.filter_cons, hE]
    have h2 : List.filter (fun t => decide (t + p ≥ now')) [now] = [now] := by
      simp [List.filter_cons, hp]
    simp only [getRatePerPeriod, clearExpiredRequests, countHistory,
      getHistoryForPeriod, registerRequest]
    rw [List.filter_append, h1, List.filter_append, h2, List.length_append]
    rfl

/-- Witness for the amended C7 at concrete inputs: appending at time 3 to
the sorted history `[1, 2]` keeps it sorted, and a fresh record at time 2
is counted by a check at time 3 with period 1 and retention window 2. -/
theorem request_recording_order_witness :
    List.Sorted (· ≤ ·) (registerRequest [(1 : ℚ), 2] 3) ∧
    (getRatePerPeriod 2 (registerRequest [(1 : ℚ)] 2) 1 3).1 =
      (getRatePerPeriod 2 [(1 : ℚ)] 1 3).1 + 1 := by
  constructor
  · apply request_recording_order.2.1 [(1 : ℚ), 2] 3
    · intro t ht
      rcases List.mem_cons.mp ht with rfl | ht2
      · norm_num
      · rw [List.mem_singleton.mp ht2]; norm_num
    · simp [List.sorted_cons]
  · exact request_recording_order.2.2.2 2 [(1 : ℚ)] 2 1 3 (by norm_num)
      (by norm_num)

/-- Embedding of `YandexDiskApi._get_common_headers`
(yandex_disk_api.py:158): the OAuth authorization header and the JSON
accept header. -/
def ydGetCommonHeaders (oauthKey : String) : List (String × String) :=
  [("Authorization", "OAuth " ++ oauthKey), ("Accept", "application/json")]

/-- Embedding of `YandexDiskApi.check_item_exists`
(yandex_disk_api.py:138) after its `_wait_for_api_limits` call: register
the request, issue a single `requests.delete` on `disk/resources` with
the probed path, suppress only status 404, and return whether the status
code differs from 404.  The backend's response is an input; the list in
the result collects every HTTP request dispatched by the call. -/
def ydCheckItemExists (apiRoot oauthKey itemPath : String)
    (history : List ℚ) (now : ℚ) (response : HttpResponse) :
    List ℚ × List HttpRequest × Except HttpError Bool :=
  (registerRequest history now,
   [⟨"DELETE", apiRoot ++ "/disk/resources", [("path", itemPath)],
     ydGetCommonHeaders oauthKey⟩],
   match ydRaiseError response 404 true with
   | Except.error e => Except.error e
   | Except.ok _ => Except.ok (response.status_code != 404))

/-- C3: `check_item_exists` dispatches exactly one HTTP request, and that
request is a DELETE on the `disk/resources` endpoint carrying the probed
path; only status 404 is suppressed (a 404 response yields `false`, any
other 4xx/5xx raises), and when the call returns it returns `true` iff
the response status is not 404 — the existence check is itself a deletion
request for the probed item. -/
theorem check_item_exists_is_delete :
    ∀ root key path h now r,
      (ydCheckItemExists root key path h now r).2.1 =
        [⟨"DELETE", root ++ "/disk/resources", [("path", path)],
          ydGetCommonHeaders key⟩] ∧
      ((ydCheckItemExists root key path h now r).2.1).length = 1 ∧
      (r.status_code = 404 →
        (ydCheckItemExists root key path h now r).2.2 = Except.ok false) ∧
      (isErrorStatus r.status_code = false →
        (ydCheckItemExists root key path h now r).2.2 =
          Except.ok (r.status_code != 404)) ∧
      (r.status_code ≠ 404 → isErrorStatus r.status_code = true →
        (ydCheckItemExists root key path h now r).2.2 =
          Except.error ⟨r.status_code, []⟩) := by
  intro root key path h now r
  refine ⟨rfl, rfl, ?_, ?_, ?_⟩
  · intro h404
    have hok : ydRaiseError r 404 true = Except.ok () := by
      rw [ydRaiseError, if_neg]
      push_neg
      exact ⟨by simpa using h404, by decide⟩
    simp only [ydCheckItemExists, hok]
    rw [show (r.status_code != 404) = false from by simp [h404]]
  · intro herr
    by_cases h404 : r.status_code = 404
    · have hok : ydRaiseError r 404 true = Except.ok () := by
        rw [ydRaiseError, if_neg]
        push_neg
        exact ⟨by simpa using h404, by decide⟩
      simp [ydCheckItemExists, hok]
    · have hok : ydRaiseError r 404 true = Except.ok () := by
        rw [ydRaiseError, if_pos (Or.inl h404), if_neg (by rw [herr]; decide)]
      simp [ydCheckItemExists, hok]
  · intro h404 herr
    have herr' : ydRaiseError r 404 true = Except.error ⟨r.status_code, []⟩ := by
      rw [ydRaiseError, if_pos (Or.inl h404), if_pos herr]
    simp [ydCheckItemExists, herr']

/-- Witness for C3 at concrete inputs: a 404 response makes the check
return `false` without raising; a 500 response raises. -/
theorem check_item_exists_witness :
    (ydCheckItemExists "R" "K" "p" [] 0 ⟨404, "", none⟩).2.2 =
      Except.ok false ∧
    (ydCheckItemExists "R" "K" "p" [] 0 ⟨500, "", none⟩).2.2 =
      Except.error ⟨500, []⟩ :=
  ⟨(check_item_exists_is_delete "R" "K" "p" [] 0 ⟨404, "", none⟩).2.2.1 rfl,
   (check_item_exists_is_delete "R" "K" "p" [] 0 ⟨500, "", none⟩).2.2.2.2
     (by decide) rfl⟩

/-- Embedding of `YandexDiskApi.create_directory` (yandex_disk_api.py:58)
after its `_wait_for_api_limits` call: register the request, issue a
single `requests.put` on `disk/resources` with the directory path, and
apply `_raise_error(response, 409, ignore_existing)`. -/
def ydCreateDirectory (apiRoot oauthKey dirPath : String)
    (ignoreExisting : Bool) (history : List ℚ) (now : ℚ)
    (response : HttpResponse) :
    List ℚ × List HttpRequest × Except HttpError Unit :=
  (registerRequest history now,
   [⟨"PUT", apiRoot ++ "/disk/resources", [("path", dirPath)],
     ydGetCommonHeaders oauthKey⟩],
   ydRaiseError response 409 ignoreExisting)

/-- C8: creating a directory that already exists (the backend answers
409) with `ignore_existing=True` dispatches exactly one HTTP request and
completes without raising; with `ignore_existing=False` the same 409
response raises an HTTP error. -/
theorem create_directory_existing_409 :
    ∀ (root key dirPath : String) (h : List ℚ) (now : ℚ) (t : String)
      (j : Option String),
      ((ydCreateDirectory root key dirPath true h now ⟨409, t, j⟩).2.1).length
        = 1 ∧
      (ydCreateDirectory root key dirPath true h now ⟨409, t, j⟩).2.2 =
        Except.ok () ∧
      (ydCreateDirectory root key dirPath false h now ⟨409, t, j⟩).2.2 =
        Except.error ⟨409, []⟩ := by
  intro root key dirPath h now t j
  refine ⟨rfl, ?_, ?_⟩
  · show ydRaiseError ⟨409, t, j⟩ 409 true = Except.ok ()
    rw [ydRaiseError, if_neg]
    push_neg
    exact ⟨rfl, by decide⟩
  · show ydRaiseError ⟨409, t, j⟩ 409 false = Except.error ⟨409, []⟩
    rw [ydRaiseError, if_pos (Or.inr rfl),
      if_pos (show isErrorStatus
        (⟨409, t, j⟩ : HttpResponse).status_code = true from rfl)]

/-- Modelled from the spec: the `MAX_UNLOCK_ATTEMPTS` bound of the lock
retry decorator (spec §4.3), "a bounded maximum attempt count (default 20
total attempts including the first)".  The decorator itself is not among
the files under src/. -/
def MAX_UNLOCK_ATTEMPTS : ℕ := 20

/-- Modelled from the spec: the fixed delay slept between lock-retry
attempts (spec §4.3, "sleeps a fixed delay (default 200 ms)"). -/
def UNLOCK_SLEEP_PERIOD : ℚ := 1 / 5

/-- Modelled from the spec: the LockRetryDecorator of spec §4.3, which is
not among the files under src/.  `responses i` is the backend's answer to
the `i`-th attempt (`i` counted from `idx`); `remaining` is the number of
attempts still allowed.  The inner call always suppresses the lock code
423 so the decorator can inspect it; on a 423 response with attempts
remaining it sleeps the fixed delay and retries; otherwise — a non-423
response, or the attempt budget exhausted — it falls back to the caller's
original suppression policy (`basicRaiseError`) on the last response.
Returns the number of attempts made, the number of sleeps performed, and
the final outcome. -/
def lockRetrySend (responses : ℕ → HttpResponse)
    (suppress : Option (List ℕ)) :
    ℕ → ℕ → ℕ × ℕ × Except HttpError HttpResponse
  | _, 0 => (0, 0, Except.error ⟨0, []⟩)
  | idx, remaining + 1 =>
    if (responses idx).status_code = 423 ∧ remaining ≠ 0 then
      let r := lockRetrySend responses suppress (idx + 1) remaining
      (r.1 + 1, r.2.1 + 1, r.2.2)
    else
      (1, 0,
        match basicRaiseError (responses idx) suppress with
        | Except.error e => Except.error e
        | Except.ok _ => Except.ok (responses idx))

/-- C2: against a backend that always answers 423, the lock-retry
decorator makes exactly `n` total attempts (the configured maximum,
default `MAX_UNLOCK_ATTEMPTS = 20`) with a sleep between consecutive
attempts (`n - 1` sleeps), and then raises the 423 error — or returns the
final response when the caller also suppressed 423 — and never makes more
attempts. -/
theorem lock_retry_bound :
    ∀ (responses : ℕ → HttpResponse) (suppress : Option (List ℕ))
      (n idx : ℕ),
      (∀ i, (responses i).status_code = 423) → 1 ≤ n →
      (lockRetrySend responses suppress idx n).1 = n ∧
      (lockRetrySend responses suppress idx n).2.1 = n - 1 ∧
      (lockRetrySend responses suppress idx n).2.2 =
        (if 423 ∈ suppress.getD [] then
          Except.ok (responses (idx + n - 1))
         else
          Except.error
            ⟨423, [getResponseMessage (responses (idx + n - 1))]⟩) := by
  intro responses suppress n
  induction n with
  | zero => intro idx _ h1; exact absurd h1 (by decide)
  | succ m ih =>
    intro idx hall _
    by_cases hm : m = 0
    · subst hm
      have hcond : ¬((responses idx).status_code = 423 ∧ (0 : ℕ) ≠ 0) := by
        intro hc
        exact hc.2 rfl
      rw [lockRetrySend, if_neg hcond]
      refine ⟨rfl, rfl, ?_⟩
      have hfinal :
          (match basicRaiseError (responses idx) suppress with
            | Except.error e => (Except.error e : Except HttpError HttpResponse)
            | Except.ok _ => Except.ok (responses idx)) =
          (if 423 ∈ suppress.getD [] then Except.ok (responses (idx + 1 - 1))
           else Except.error
             ⟨423, [getResponseMessage (responses (idx + 1 - 1))]⟩) := by
        rw [show idx + 1 - 1 = idx from rfl]
        by_cases hsup : 423 ∈ suppress.getD []
        · have hok : basicRaiseError (responses idx) suppress =
              Except.ok () := by
            rw [basicRaiseError, if_neg]
            push_neg
            constructor
            · intro hnone
              rw [hnone] at hsup
              exact absurd hsup (List.not_mem_nil _)
            · rw [hall idx]
              exact hsup
          rw [hok, if_pos hsup]
        · have herr : basicRaiseError (responses idx) suppress =
              Except.error ⟨(responses idx).status_code,
                [getResponseMessage (responses idx)]⟩ := by
            have hcond2 : suppress = none ∨
                (responses idx).status_code ∉ suppress.getD [] := by
              cases suppress with
              | none => exact Or.inl rfl
              | some s =>
                refine Or.inr ?_
                rw [hall idx]
                exact hsup
            rw [basicRaiseError, if_pos hcond2,
              if_pos (by rw [hall idx]; decide)]
          rw [herr, if_neg hsup, hall idx]
      exact hfinal
    · have hcond : (responses idx).status_code = 423 ∧ m ≠ 0 :=
        ⟨hall idx, hm⟩
      rw [lockRetrySend, if_pos hcond]
      obtain ⟨ha, hs, hr⟩ := ih (idx + 1) hall (Nat.one_le_iff_ne_zero.mpr hm)
      refine ⟨?_, ?_, ?_⟩
      · show (lockRetrySend responses suppress (idx + 1) m).1 + 1 = m + 1
        rw [ha]
      · show (lockRetrySend responses suppress (idx + 1) m).2.1 + 1 = m + 1 - 1
        rw [hs]
        omega
      · show (lockRetrySend responses suppress (idx + 1) m).2.2 = _
        rw [hr, show idx + 1 + m - 1 = idx + (m + 1) - 1 from by omega]

/-- Witness for C2: a backend answering 423 at every attempt, with no
caller suppression and the default budget of 20, yields exactly 20
attempts, 19 sleeps, and a raised 423 error. -/
theorem lock_retry_bound_witness :
    (lockRetrySend (fun _ => ⟨423, "locked", none⟩) none 0
      MAX_UNLOCK_ATTEMPTS).1 = 20 ∧
    (lockRetrySend (fun _ => ⟨423, "locked", none⟩) none 0
      MAX_UNLOCK_ATTEMPTS).2.1 = 19 ∧
    (lockRetrySend (fun _ => ⟨423, "locked", none⟩) none 0
      MAX_UNLOCK_ATTEMPTS).2.2 = Except.error ⟨423, ["locked"]⟩ :=
  lock_retry_bound (fun _ => ⟨423, "locked", none⟩) none
    MAX_UNLOCK_ATTEMPTS 0 (fun _ => rfl) (by decide)

/-- Modelled from the spec: the `wait_for_operation` loop of the
AsyncOperationWaiter (spec §4.4), which is not among the files under
src/: poll the operation-status endpoint at a fixed interval (default
200 ms) until the reported status equals "success".  `statuses i` is the
status reported by the `i`-th poll; `fuel` bounds the recursion depth
(the source loop is unbounded; a run that never reports "success" within
`fuel` polls yields `none`).  Returns the total number of polls
performed when the loop exits. -/
def waitForOperation (statuses : ℕ → String) : ℕ → ℕ → Option ℕ
  | _, 0 => none
  | idx, fuel + 1 =>
    if statuses idx = "success" then some (idx + 1)
    else waitForOperation statuses (idx + 1) fuel

theorem waitForOperation_sound (statuses : ℕ → String) :
    ∀ (fuel idx n : ℕ), waitForOperation statuses idx fuel = some n →
      idx < n ∧ statuses (n - 1) = "success" ∧
      ∀ i, idx ≤ i → i < n - 1 → statuses i ≠ "success" := by
  intro fuel
  induction fuel with
  | zero => intro idx n heq; exact absurd heq (by rw [waitForOperation]; simp)
  | succ m ih =>
    intro idx n heq
    by_cases hs : statuses idx = "success"
    · rw [waitForOperation, if_pos hs] at heq
      have hn : n = idx + 1 := (Option.some_inj.mp heq).symm
      subst hn
      exact ⟨Nat.lt_succ_self idx, by simpa using hs, fun i h1 h2 => by omega⟩
    · rw [waitForOperation, if_neg hs] at heq
      obtain ⟨h1, h2, h3⟩ := ih (idx + 1) n heq
      refine ⟨by omega, h2, ?_⟩
      intro i hi1 hi2
      by_cases hii : i = idx
      · subst hii; exact hs
      · exact h3 i (by omega) hi2

/-- C4: `wait_for_operation` returns only once the reported status equals
"success" (the successful poll is the last one, and no earlier poll saw
"success"); in particular, with a status endpoint reporting "running"
twice and then "success", it returns after exactly 3 polls. -/
theorem wait_for_operation_polls :
    (∀ (statuses : ℕ → String) (fuel n : ℕ),
      waitForOperation statuses 0 fuel = some n →
      1 ≤ n ∧ statuses (n - 1) = "success" ∧
      ∀ i, i < n - 1 → statuses i ≠ "success") ∧
    (∀ (statuses : ℕ → String) (fuel : ℕ),
      statuses 0 = "running" → statuses 1 = "running" →
      statuses 2 = "success" → 3 ≤ fuel →
      waitForOperation statuses 0 fuel = some 3) := by
  constructor
  · intro statuses fuel n heq
    obtain ⟨h1, h2, h3⟩ := waitForOperation_sound statuses fuel 0 n heq
    exact ⟨h1, h2, fun i hi => h3 i (Nat.zero_le i) hi⟩
  · intro statuses fuel hs0 hs1 hs2 hfuel
    have hstep : ∀ idx m, statuses idx ≠ "success" →
        waitForOperation statuses idx (m + 1) =
          waitForOperation statuses (idx + 1) m := by
      intro idx m hne
      rw [waitForOperation, if_neg hne]
    obtain ⟨k, hk⟩ := Nat.exists_eq_add_of_le hfuel
    rw [hk, show 3 + k = (k + 2) + 1 from by omega,
      hstep 0 (k + 2) (by rw [hs0]; decide),
      show k + 2 = (k + 1) + 1 from rfl,
      hstep 1 (k + 1) (by rw [hs1]; decide),
      show k + 1 = k + 1 from rfl, waitForOperation, if_pos hs2]

/-- Witness for C4: a status endpoint reporting "running" for the first
two polls and "success" afterwards makes `wait_for_operation` (with fuel
5) return after exactly 3 polls. -/
theorem wait_for_operation_polls_witness :
    waitForOperation (fun i => if i < 2 then "running" else "success")
      0 5 = some 3 :=
  wait_for_operation_polls.2 (fun i => if i < 2 then "running" else "success")
    5 rfl rfl rfl (by decide)
